import Mathlib

/-!
Verification development for the Lumen+ community-management app
(React Native/Expo client + FastAPI backend).

The mobile client sources are embedded directly (community.tsx,
members screen, invites screen, api.ts, login.tsx, home screen).
The backend request handlers are not part of the source tree (only the
backend README and the client that calls it are), so the backend
operations (invitation workflow, child-unit creation, tree assembly,
member listing, permission resolution) are modelled from the
specification, and each such definition is marked `Modelled from the
spec:` in its doc comment.

Enum constructor names follow the spec's English names; the client
wire strings are Portuguese (CONSELHO_GERAL, CONSELHO_EXECUTIVO,
SETOR, MINISTERIO, GRUPO) and are produced by `unitTypeStr` below.
-/

namespace Lumen

/-- Org-unit types. Client wire strings: CONSELHO_GERAL,
CONSELHO_EXECUTIVO, SETOR, MINISTERIO, GRUPO. -/
inductive UnitType where
  | COUNCIL_GENERAL
  | COUNCIL_EXECUTIVE
  | SECTOR
  | MINISTRY
  | GROUP
  deriving DecidableEq, Repr, Fintype

/-- Group subtypes (only for type GROUP). Client wire strings:
ACOLHIDA, APROFUNDAMENTO, VOCACIONAL, CASAIS, CURSO, PROJETO. -/
inductive GroupType where
  | ACOLHIDA
  | APROFUNDAMENTO
  | VOCACIONAL
  | CASAIS
  | CURSO
  | PROJETO
  deriving DecidableEq, Repr, Fintype

/-- Membership roles (types/index.ts, members screen). -/
inductive Role where
  | MEMBER
  | COORDINATOR
  deriving DecidableEq, Repr

/-- Membership status (types/index.ts `MembershipStatus`). -/
inductive MembershipStatus where
  | PENDING
  | ACTIVE
  | REJECTED
  | REMOVED
  deriving DecidableEq, Repr

/-- Invitation status (spec section 3: PENDING initial, ACCEPTED and
REJECTED terminal). -/
inductive InvStatus where
  | PENDING
  | ACCEPTED
  | REJECTED
  deriving DecidableEq, Repr

/-- Unit visibility (community.tsx: PUBLIC / RESTRICTED). -/
inductive Visibility where
  | PUBLIC
  | RESTRICTED
  deriving DecidableEq, Repr

/-- Wire string of a unit type as used by the client
(community.tsx Picker values). -/
def unitTypeStr : UnitType → String
  | .COUNCIL_GENERAL => "CONSELHO_GERAL"
  | .COUNCIL_EXECUTIVE => "CONSELHO_EXECUTIVO"
  | .SECTOR => "SETOR"
  | .MINISTRY => "MINISTERIO"
  | .GROUP => "GRUPO"

/-- Wire string of a group type (community.tsx). -/
def groupTypeStr : GroupType → String
  | .ACOLHIDA => "ACOLHIDA"
  | .APROFUNDAMENTO => "APROFUNDAMENTO"
  | .VOCACIONAL => "VOCACIONAL"
  | .CASAIS => "CASAIS"
  | .CURSO => "CURSO"
  | .PROJETO => "PROJETO"

/-- JS `String.prototype.split(sep)` for a one-character separator,
over strings as char lists: chunks between separator occurrences,
empty chunks included. -/
def splitOnChar (sep : Char) : List Char → List (List Char)
  | [] => [[]]
  | c :: rest =>
      match splitOnChar sep rest with
      | [] => [[]]
      | w :: ws =>
          if c = sep then [] :: w :: ws else (c :: w) :: ws

/-- Whitespace as trimmed by JS `String.prototype.trim` (the common
ASCII cases suffice here). -/
def isJsSpace (c : Char) : Bool :=
  c = ' ' ∨ c = '\t' ∨ c = '\n' ∨ c = '\r'

/-- JS `String.prototype.trim`: drop whitespace from both ends. -/
def jsTrim (s : List Char) : List Char :=
  ((s.dropWhile isJsSpace).reverse.dropWhile isJsSpace).reverse

/-- The ASCII uppercase/lowercase pairs used to model JS
`String.prototype.toLowerCase`. -/
def upperLowerPairs : List (Char × Char) :=
  [('A', 'a'), ('B', 'b'), ('C', 'c'), ('D', 'd'), ('E', 'e'),
   ('F', 'f'), ('G', 'g'), ('H', 'h'), ('I', 'i'), ('J', 'j'),
   ('K', 'k'), ('L', 'l'), ('M', 'm'), ('N', 'n'), ('O', 'o'),
   ('P', 'p'), ('Q', 'q'), ('R', 'r'), ('S', 's'), ('T', 't'),
   ('U', 'u'), ('V', 'v'), ('W', 'w'), ('X', 'x'), ('Y', 'y'),
   ('Z', 'z')]

/-- JS `toLowerCase` on one character (ASCII range). -/
def jsToLowerChar (c : Char) : Char :=
  match upperLowerPairs.find? (fun p => p.1 = c) with
  | some p => p.2
  | none => c

/-- JS `String.prototype.toLowerCase` over char lists. -/
def jsToLower (s : List Char) : List Char :=
  s.map jsToLowerChar

/-- One entry of `CHILD_TYPE_OPTIONS` (community.tsx lines 89-113):
a selectable child type, with an optional group subtype. The label
field is presentation-only and omitted. -/
structure ChildOption where
  value : UnitType
  groupType : Option GroupType
  deriving DecidableEq, Repr

/-- `CHILD_TYPE_OPTIONS` from community.tsx lines 89-113, keyed by the
parent unit type. GROUP has no entry in the source record, hence the
empty list. -/
def CHILD_TYPE_OPTIONS : UnitType → List ChildOption
  | .COUNCIL_GENERAL => [⟨.COUNCIL_EXECUTIVE, none⟩]
  | .COUNCIL_EXECUTIVE => [⟨.SECTOR, none⟩]
  | .SECTOR =>
      [⟨.MINISTRY, none⟩,
       ⟨.GROUP, some .ACOLHIDA⟩,
       ⟨.GROUP, some .APROFUNDAMENTO⟩,
       ⟨.GROUP, some .VOCACIONAL⟩,
       ⟨.GROUP, some .CASAIS⟩,
       ⟨.GROUP, some .CURSO⟩,
       ⟨.GROUP, some .PROJETO⟩]
  | .MINISTRY =>
      [⟨.GROUP, some .ACOLHIDA⟩,
       ⟨.GROUP, some .APROFUNDAMENTO⟩,
       ⟨.GROUP, some .VOCACIONAL⟩,
       ⟨.GROUP, some .CASAIS⟩,
       ⟨.GROUP, some .CURSO⟩,
       ⟨.GROUP, some .PROJETO⟩]
  | .GROUP => []

/-- The Picker item value for an option in the create modal
(community.tsx line 442): the template string value-dash-groupType,
with the empty string when groupType is absent. -/
def optionKey (o : ChildOption) : List Char :=
  (unitTypeStr o.value).data ++ '-' ::
    ((o.groupType.map groupTypeStr).getD "").data

/-- The create-form state of community.tsx (`createForm`). -/
structure CreateForm where
  name : List Char
  description : List Char
  visibility : Visibility
  selectedType : List Char
  deriving DecidableEq, Repr

/-- The JSON body posted to `/org/units/:parentId/children`
(community.tsx lines 223-228). -/
structure CreatePayload where
  name : List Char
  description : Option (List Char)
  visibility : Visibility
  group_type : Option GroupType
  deriving DecidableEq, Repr

/-- `handleCreate` from community.tsx lines 205-239, as the partial
function from form state to the posted payload: `none` models the two
early-return alert paths (blank name / no selected type, and selected
type not found among the parent's options). -/
def handleCreate (parentType : UnitType) (form : CreateForm) :
    Option CreatePayload :=
  if jsTrim form.name = [] ∨ form.selectedType = [] then none
  else
    match (CHILD_TYPE_OPTIONS parentType).find?
        (fun o => optionKey o = form.selectedType) with
    | none => none
    | some o =>
        some { name := jsTrim form.name,
               description :=
                 if jsTrim form.description = [] then none
                 else some (jsTrim form.description),
               visibility := form.visibility,
               group_type := o.groupType }

/-- Modelled from the spec: the fixed hierarchy table of section 4.1
(COUNCIL_GENERAL to COUNCIL_EXECUTIVE; COUNCIL_EXECUTIVE to SECTOR;
SECTOR to MINISTRY or GROUP; MINISTRY to GROUP). The backend
validator that enforces it is not in the source tree. -/
def allowedChild : UnitType → UnitType → Bool
  | .COUNCIL_GENERAL, .COUNCIL_EXECUTIVE => true
  | .COUNCIL_EXECUTIVE, .SECTOR => true
  | .SECTOR, .MINISTRY => true
  | .SECTOR, .GROUP => true
  | .MINISTRY, .GROUP => true
  | _, _ => false

/-- An OrgUnit row (spec section 3, data model). -/
structure OrgUnitRec where
  id : Nat
  type : UnitType
  group_type : Option GroupType
  visibility : Visibility
  is_active : Bool
  parent_id : Option Nat
  deriving DecidableEq, Repr

/-- A Membership row (spec section 3, data model). -/
structure MembershipRec where
  id : Nat
  user_id : Nat
  org_unit_id : Nat
  role : Role
  status : MembershipStatus
  joined_at : Nat
  deriving DecidableEq, Repr

/-- An Invitation row (spec section 3, data model). -/
structure InvitationRec where
  id : Nat
  org_unit_id : Nat
  invited_user_id : Nat
  invited_by_user_id : Nat
  role : Role
  status : InvStatus
  expires_at : Option Nat
  deriving DecidableEq, Repr

/-- The relational store the backend operates on
(spec sections 2 and 3). -/
structure DB where
  units : List OrgUnitRec
  memberships : List MembershipRec
  invitations : List InvitationRec
  nextId : Nat
  deriving DecidableEq, Repr

/-- Error taxonomy of spec section 7. -/
inductive OrgError where
  | Unauthorized
  | Forbidden
  | InvalidHierarchy
  | RootAlreadyExists
  | DuplicatePending
  | AlreadyMember
  | MemberNotFound
  | InvalidState
  | Expired
  | NotFound
  deriving DecidableEq, Repr

def findUnit (db : DB) (unitId : Nat) : Option OrgUnitRec :=
  db.units.find? (fun u => u.id = unitId)

def findInvitation (db : DB) (invId : Nat) : Option InvitationRec :=
  db.invitations.find? (fun i => i.id = invId)

/-- Whether a user holds an ACTIVE membership (any role) on a unit. -/
def hasActiveMembership (db : DB) (userId unitId : Nat) : Bool :=
  db.memberships.any (fun m =>
    m.user_id = userId ∧ m.org_unit_id = unitId ∧
    m.status = MembershipStatus.ACTIVE)

/-- Whether a user holds an ACTIVE COORDINATOR membership on a unit. -/
def hasActiveCoordinator (db : DB) (userId unitId : Nat) : Bool :=
  db.memberships.any (fun m =>
    m.user_id = userId ∧ m.org_unit_id = unitId ∧
    m.status = MembershipStatus.ACTIVE ∧ m.role = Role.COORDINATOR)

/-- Modelled from the spec (section 4.4): `can_invite` is true iff the
user holds an ACTIVE COORDINATOR membership on that exact unit. The
backend permission resolver is not in the source tree. -/
def can_invite (db : DB) (userId unitId : Nat) : Bool :=
  hasActiveCoordinator db userId unitId

/-- Modelled from the spec (section 4.4): `can_manage_members` is true
iff the user holds an ACTIVE COORDINATOR membership on that exact
unit. The backend permission resolver is not in the source tree. -/
def can_manage_members (db : DB) (userId unitId : Nat) : Bool :=
  hasActiveCoordinator db userId unitId

/-- Modelled from the spec (section 4.4): effective content
visibility. A unit's content is visible to a user iff the unit is
PUBLIC, or the user holds an ACTIVE membership (any role) on the unit,
or the unit is a SECTOR and the user holds an ACTIVE membership on a
MINISTRY whose parent is that SECTOR (the single one-level,
type-specific inheritance rule). The backend resolver is not in the
source tree. -/
def canView (db : DB) (userId unitId : Nat) : Bool :=
  match findUnit db unitId with
  | none => false
  | some u =>
      u.visibility = Visibility.PUBLIC ∨
      hasActiveMembership db userId unitId = true ∨
      (u.type = UnitType.SECTOR ∧
        db.units.any (fun m =>
          m.type = UnitType.MINISTRY ∧ m.parent_id = some unitId ∧
          hasActiveMembership db userId m.id))

/-- Whether an invitation is past its expiry (spec section 4.3:
checked at use-time against `expires_at`). -/
def invExpired (inv : InvitationRec) (now : Nat) : Bool :=
  match inv.expires_at with
  | none => false
  | some t => t < now

/-- Modelled from the spec (section 4.3): `invite`. Fails NotFound if
the unit is absent, Unauthorized if the caller lacks `can_invite`,
DuplicatePending if a PENDING invitation already exists for the
(unit, invited user) pair, AlreadyMember if the invited user already
holds an ACTIVE membership. On success appends a PENDING invitation
with a fresh id. The backend handler is not in the source tree. -/
def invite (db : DB) (callerId unitId invitedId : Nat) (role : Role) :
    Except OrgError DB :=
  match findUnit db unitId with
  | none => Except.error OrgError.NotFound
  | some _ =>
      if ¬ can_invite db callerId unitId then
        Except.error OrgError.Unauthorized
      else if db.invitations.any (fun i =>
          i.org_unit_id = unitId ∧ i.invited_user_id = invitedId ∧
          i.status = InvStatus.PENDING) then
        Except.error OrgError.DuplicatePending
      else if hasActiveMembership db invitedId unitId then
        Except.error OrgError.AlreadyMember
      else
        Except.ok { db with
          invitations :=
            { id := db.nextId, org_unit_id := unitId,
              invited_user_id := invitedId,
              invited_by_user_id := callerId, role := role,
              status := InvStatus.PENDING,
              expires_at := none } :: db.invitations,
          nextId := db.nextId + 1 }

/-- Modelled from the spec (section 4.3): `accept`. Checks, in the
spec's order: invitation exists (NotFound), caller is the invited
user (Forbidden), not past expiry (Expired), status is PENDING
(InvalidState), no ACTIVE membership already exists for the pair
(AlreadyMember, the membership uniqueness constraint). On success
atomically inserts the Membership and flips the invitation to
ACCEPTED. The backend handler is not in the source tree. -/
def accept (db : DB) (invId callerId now : Nat) : Except OrgError DB :=
  match findInvitation db invId with
  | none => Except.error OrgError.NotFound
  | some inv =>
      if inv.invited_user_id ≠ callerId then
        Except.error OrgError.Forbidden
      else if invExpired inv now then
        Except.error OrgError.Expired
      else if inv.status ≠ InvStatus.PENDING then
        Except.error OrgError.InvalidState
      else if hasActiveMembership db inv.invited_user_id inv.org_unit_id then
        Except.error OrgError.AlreadyMember
      else
        Except.ok { db with
          memberships :=
            { id := db.nextId, user_id := inv.invited_user_id,
              org_unit_id := inv.org_unit_id, role := inv.role,
              status := MembershipStatus.ACTIVE,
              joined_at := now } :: db.memberships,
          invitations := db.invitations.map (fun i =>
            if i.id = invId then { i with status := InvStatus.ACCEPTED }
            else i),
          nextId := db.nextId + 1 }

/-- Modelled from the spec (section 4.3): `reject`. Same authorization
and state checks as `accept`; flips the invitation to REJECTED and
creates no Membership. The backend handler is not in the source
tree. -/
def reject (db : DB) (invId callerId now : Nat) : Except OrgError DB :=
  match findInvitation db invId with
  | none => Except.error OrgError.NotFound
  | some inv =>
      if inv.invited_user_id ≠ callerId then
        Except.error OrgError.Forbidden
      else if invExpired inv now then
        Except.error OrgError.Expired
      else if inv.status ≠ InvStatus.PENDING then
        Except.error OrgError.InvalidState
      else
        Except.ok { db with
          invitations := db.invitations.map (fun i =>
            if i.id = invId then { i with status := InvStatus.REJECTED }
            else i) }

/-- Modelled from the spec (section 4.1): `createChild`. Validates
that the parent exists (NotFound) and is active (NotFound), that the
parent/child type pair is in the fixed hierarchy table
(InvalidHierarchy), and that the caller is a coordinator of the
parent (Unauthorized); then appends the child unit. The backend
handler is not in the source tree. -/
def createChild (db : DB) (callerId parentId : Nat)
    (childType : UnitType) (gt : Option GroupType)
    (vis : Visibility) : Except OrgError DB :=
  match findUnit db parentId with
  | none => Except.error OrgError.NotFound
  | some parent =>
      if ¬ parent.is_active then Except.error OrgError.NotFound
      else if ¬ allowedChild parent.type childType then
        Except.error OrgError.InvalidHierarchy
      else if ¬ hasActiveCoordinator db callerId parentId then
        Except.error OrgError.Unauthorized
      else
        Except.ok { db with
          units :=
            { id := db.nextId, type := childType, group_type := gt,
              visibility := vis, is_active := true,
              parent_id := some parentId } :: db.units,
          nextId := db.nextId + 1 }

/-- Count of ACTIVE Membership rows for a (user, unit) pair. -/
def activeCount (db : DB) (userId unitId : Nat) : Nat :=
  (db.memberships.filter (fun m =>
    m.user_id = userId ∧ m.org_unit_id = unitId ∧
    m.status = MembershipStatus.ACTIVE)).length

/-- Modelled from the spec (section 7, propagation policy): each
operation runs as one transaction — on success the returned store
replaces the old one, on error the old store is kept and the error is
surfaced to the client. -/
def runOp (op : DB → Except OrgError DB) (db : DB) :
    DB × Option OrgError :=
  match op db with
  | Except.ok db2 => (db2, none)
  | Except.error e => (db, some e)

/-- One of the caller's memberships as delivered to the client by
`GET /org/my/memberships` (community.tsx `Membership` interface;
display-only fields omitted). -/
structure ClientMembership where
  id : Nat
  org_unit_id : Nat
  role : Role
  deriving DecidableEq, Repr

/-- `isCoordinator` from community.tsx lines 183-187: the caller is a
coordinator of a unit iff some delivered membership is on that exact
unit with role COORDINATOR. -/
def isCoordinator (myMemberships : List ClientMembership)
    (unitId : Nat) : Bool :=
  myMemberships.any (fun m =>
    m.org_unit_id = unitId ∧ m.role = Role.COORDINATOR)

/-- `isMember` from community.tsx lines 189-191. -/
def isMember (myMemberships : List ClientMembership)
    (unitId : Nat) : Bool :=
  myMemberships.any (fun m => m.org_unit_id = unitId)

mutual
/-- A node of the nested tree returned by `GET /org/tree`
(community.tsx `OrgUnit` interface); only the id and the children
array matter for traversal, the other fields are display-only. -/
inductive TreeUnit where
  | node (id : Nat) (children : TreeChildren)
/-- The `children: OrgUnit[]` array, as a cons list. -/
inductive TreeChildren where
  | nil
  | cons (head : TreeUnit) (tail : TreeChildren)
end

def TreeUnit.rootId : TreeUnit → Nat
  | .node i _ => i

/-- `hasChildren` from renderUnit (community.tsx line 243). -/
def hasChildrenC : TreeChildren → Bool
  | .nil => false
  | .cons _ _ => true

mutual
/-- Preorder id traversal of the nested structure: the node, then its
children left to right. -/
def TreeUnit.flatten : TreeUnit → List Nat
  | .node i cs => i :: TreeChildren.flattenC cs
def TreeChildren.flattenC : TreeChildren → List Nat
  | .nil => []
  | .cons t ts => TreeUnit.flatten t ++ TreeChildren.flattenC ts
end

mutual
/-- The parent/child id pairs of the nested structure. -/
def TreeUnit.edges : TreeUnit → List (Nat × Nat)
  | .node i cs => TreeChildren.edgesC i cs
def TreeChildren.edgesC : Nat → TreeChildren → List (Nat × Nat)
  | _, .nil => []
  | p, .cons t ts =>
      (p, TreeUnit.rootId t) ::
        (TreeUnit.edges t ++ TreeChildren.edgesC p ts)
end

mutual
/-- `renderUnit` from community.tsx lines 241-304, as the list of
rendered rows (unit id, indentation level): the node's own row first,
then — when it has children and is expanded — the recursively
rendered children at level + 1. -/
def renderUnit (expanded : List Nat) :
    TreeUnit → Nat → List (Nat × Nat)
  | .node i cs, level =>
      (i, level) ::
        (if hasChildrenC cs = true ∧ i ∈ expanded then
          renderChildrenList expanded cs (level + 1)
        else [])
/-- `unit.children.map(child => renderUnit(child, level + 1))`. -/
def renderChildrenList (expanded : List Nat) :
    TreeChildren → Nat → List (Nat × Nat)
  | .nil, _ => []
  | .cons t ts, level =>
      renderUnit expanded t level ++
        renderChildrenList expanded ts level
end

/-- One member row as delivered to the members screen
(community.tsx `Member` interface; display-only fields omitted). -/
structure ClientMember where
  user_id : Nat
  role : Role
  joined_at : Nat
  deriving DecidableEq, Repr

/-- The list the members screen displays (community.tsx lines
1264-1289): `[...coordinators, ...regularMembers]` where
`coordinators` filters role COORDINATOR and `regularMembers` filters
role MEMBER. -/
def displayedMembers (members : List ClientMember) :
    List ClientMember :=
  members.filter (fun m => m.role = Role.COORDINATOR) ++
    members.filter (fun m => m.role = Role.MEMBER)

/-- Sort rank of a role: coordinators first (spec section 4.2). -/
def roleRank : Role → Nat
  | .COORDINATOR => 0
  | .MEMBER => 1

/-- Modelled from the spec (section 4.2): the `listMembers` order —
coordinators first, then by join date. -/
def memberOrder (a b : MembershipRec) : Prop :=
  roleRank a.role < roleRank b.role ∨
    (roleRank a.role = roleRank b.role ∧ a.joined_at ≤ b.joined_at)

instance : DecidableRel memberOrder := fun a b => by
  unfold memberOrder; infer_instance

instance : IsTotal MembershipRec memberOrder :=
  ⟨by intro a b; unfold memberOrder; omega⟩

instance : IsTrans MembershipRec memberOrder :=
  ⟨by intro a b c h1 h2; unfold memberOrder at h1 h2 ⊢; omega⟩

/-- Modelled from the spec (section 4.2): `listMembers(unitId)`
returns the ACTIVE memberships of the unit only, ordered
coordinators-first then by join date. The backend handler is not in
the source tree. -/
def listMembers (db : DB) (unitId : Nat) : List MembershipRec :=
  List.insertionSort memberOrder
    (db.memberships.filter (fun m =>
      m.org_unit_id = unitId ∧ m.status = MembershipStatus.ACTIVE))

/-- A parsed JSON value, kept abstract: the empty object (what the
`.catch` fallback of api.ts line 82 produces) or some other payload. -/
inductive Json where
  | emptyObj
  | payload (s : String)
  deriving DecidableEq, Repr

/-- An HTTP response as seen by `ApiClient.request` (api.ts lines
76-87): the `ok` flag, the status code, and the body, where `none`
models a body on which `response.json()` fails to parse. -/
structure HttpResponse where
  ok : Bool
  status : Nat
  body : Option Json
  deriving DecidableEq, Repr

/-- The object thrown by api.ts line 83:
`{ response: { status, data } }`. -/
structure ThrownError where
  status : Nat
  data : Json
  deriving DecidableEq, Repr

/-- The stored auth token (the module-level `token` field together
with the SecureStore entry, which `setToken`/`clearToken` keep in
sync). -/
structure TokenStore where
  token : Option String
  deriving DecidableEq, Repr

/-- Outcome of one `ApiClient.request` call. -/
inductive RequestResult where
  | success (body : Option Json)
  | failure (e : ThrownError)
  deriving DecidableEq, Repr

/-- `ApiClient.request` error handling, api.ts lines 76-87: on a
non-ok response, clear the stored token when the status is 401, parse
the body with the empty-object fallback, and throw the structured
error; on an ok response, return the parsed body and leave the token
alone. -/
def request (st : TokenStore) (resp : HttpResponse) :
    TokenStore × RequestResult :=
  if resp.ok = false then
    let st2 : TokenStore :=
      if resp.status = 401 then { token := none } else st
    (st2, RequestResult.failure
      { status := resp.status, data := resp.body.getD Json.emptyObj })
  else
    (st, RequestResult.success resp.body)

/-- `email.trim().toLowerCase()` as computed by handleDevLogin
(login.tsx line 82). -/
def normalizedEmail (email : List Char) : List Char :=
  jsToLower (jsTrim email)

/-- The dev token built by `handleDevLogin` (login.tsx lines 74-84):
guarded by `email.includes('@')`, the stored token is
`dev` + colon + `email.split('@')[0]` + colon +
`email.trim().toLowerCase()`; `none` models the early-return error
path. -/
def handleDevLogin (email : List Char) : Option (List Char) :=
  if '@' ∈ email then
    some (['d', 'e', 'v', ':'] ++
      ((splitOnChar '@' email).headD []) ++
      [':'] ++ normalizedEmail email)
  else none

/-- `loadUser` from the home screen (part_004 lines 29-41): split the
stored token on colons and, when there are at least three fields,
take the third as the email. -/
def loadUser (token : List Char) : Option (List Char) :=
  let parts := splitOnChar ':' token
  if 3 ≤ parts.length then some (parts.getD 2 []) else none

/-- The alert message computed by the invites screen when an accept
or reject request fails (part_003 lines 101-103 and 128-130): the
structured detail message from the thrown error when present, a fixed
fallback otherwise. -/
def inviteActionErrorMessage (detailMessage : Option String)
    (fallback : String) : String :=
  detailMessage.getD fallback

/-- The invites-screen outcome of a failed accept/reject (part_003
lines 101-106): the displayed alert text, and the invites list left
exactly as it was (loadInvites runs only on success). -/
def onInviteActionFailure (invites : List Nat)
    (detailMessage : Option String) (fallback : String) :
    List Nat × String :=
  (invites, inviteActionErrorMessage detailMessage fallback)

/-! Concrete fixtures used by the witness theorems. -/

/-- A SECTOR unit, id 1, active, RESTRICTED. -/
def wParent : OrgUnitRec :=
  ⟨1, UnitType.SECTOR, none, Visibility.RESTRICTED, true, some 0⟩

/-- A MINISTRY unit, id 2, child of unit 1. -/
def wMinistry : OrgUnitRec :=
  ⟨2, UnitType.MINISTRY, none, Visibility.PUBLIC, true, some 1⟩

/-- User 10 is an ACTIVE COORDINATOR of unit 1. -/
def wCoordMem : MembershipRec :=
  ⟨100, 10, 1, Role.COORDINATOR, MembershipStatus.ACTIVE, 0⟩

/-- User 20 is an ACTIVE MEMBER of the MINISTRY unit 2. -/
def wMinistryMem : MembershipRec :=
  ⟨101, 20, 2, Role.MEMBER, MembershipStatus.ACTIVE, 0⟩

def wDb : DB := ⟨[wParent, wMinistry], [wCoordMem, wMinistryMem], [], 200⟩

/-- `wDb` after user 10 invites user 30 to unit 1 as MEMBER. -/
def wDb1 : DB :=
  ⟨[wParent, wMinistry], [wCoordMem, wMinistryMem],
   [⟨200, 1, 30, 10, Role.MEMBER, InvStatus.PENDING, none⟩], 201⟩

/-- `wDb1` after user 30 accepts invitation 200 at time 5. -/
def wDb2 : DB :=
  ⟨[wParent, wMinistry],
   [⟨201, 30, 1, Role.MEMBER, MembershipStatus.ACTIVE, 5⟩,
    wCoordMem, wMinistryMem],
   [⟨200, 1, 30, 10, Role.MEMBER, InvStatus.ACCEPTED, none⟩], 202⟩

/-- A concrete nested tree used by the witness: unit 1 with children
2 (which has child 3) and 4. -/
def wTree : TreeUnit :=
  TreeUnit.node 1 (TreeChildren.cons
    (TreeUnit.node 2 (TreeChildren.cons
      (TreeUnit.node 3 TreeChildren.nil) TreeChildren.nil))
    (TreeChildren.cons (TreeUnit.node 4 TreeChildren.nil)
      TreeChildren.nil))

/-! Theorems, one per claim, with witnesses. -/

/-- C2: for every parent unit and requested child type, `createChild`
succeeds iff the (parent type, child type) pair is in the fixed
hierarchy table, and any pair outside the table fails with
InvalidHierarchy; the client's `CHILD_TYPE_OPTIONS` offers exactly the
pairs of that table. -/
theorem c2_createChild_iff_hierarchy :
    (∀ p c : UnitType,
        ((CHILD_TYPE_OPTIONS p).any (fun o => o.value = c)) =
          allowedChild p c) ∧
    (∀ db callerId parentId parent ct gt vis,
        findUnit db parentId = some parent →
        parent.is_active = true →
        ((allowedChild parent.type ct = false →
            createChild db callerId parentId ct gt vis =
              Except.error OrgError.InvalidHierarchy) ∧
         (hasActiveCoordinator db callerId parentId = true →
            ((∃ db2, createChild db callerId parentId ct gt vis =
                Except.ok db2) ↔
              allowedChild parent.type ct = true)))) := by
  constructor
  · decide
  · intro db callerId parentId parent ct gt vis hfind hact
    constructor
    · intro hno
      simp [createChild, hfind, hact, hno]
    · intro hcoord
      constructor
      · rintro ⟨db2, h⟩
        by_contra hn
        rw [Bool.not_eq_true] at hn
        simp [createChild, hfind, hact, hn] at h
      · intro hyes
        refine ⟨{ db with
          units :=
            { id := db.nextId, type := ct, group_type := gt,
              visibility := vis, is_active := true,
              parent_id := some parentId } :: db.units,
          nextId := db.nextId + 1 }, ?_⟩
        simp [createChild, hfind, hact, hyes, hcoord]

/-- Witness for C2: with a concrete store whose unit 1 is an active
SECTOR coordinated by user 10, creating a COUNCIL_EXECUTIVE child
fails with InvalidHierarchy and creating a MINISTRY child succeeds. -/
theorem c2_createChild_iff_hierarchy_witness :
    createChild wDb 10 1 UnitType.COUNCIL_EXECUTIVE none
        Visibility.PUBLIC = Except.error OrgError.InvalidHierarchy ∧
    ∃ db2, createChild wDb 10 1 UnitType.MINISTRY none
        Visibility.PUBLIC = Except.ok db2 :=
  ⟨(c2_createChild_iff_hierarchy.2 wDb 10 1 wParent
      UnitType.COUNCIL_EXECUTIVE none Visibility.PUBLIC
      (by decide) (by decide)).1 (by decide),
   ((c2_createChild_iff_hierarchy.2 wDb 10 1 wParent
      UnitType.MINISTRY none Visibility.PUBLIC
      (by decide) (by decide)).2 (by decide)).mpr (by decide)⟩

/-- C8: in the client's child-creation table an option carries a group
subtype exactly when the selected child type is GROUP, and every
payload actually posted by handleCreate has a non-null group_type
exactly when the option it selected has type GROUP. -/
theorem c8_group_type_iff_group :
    (∀ p : UnitType, ∀ o ∈ CHILD_TYPE_OPTIONS p,
        (o.groupType ≠ none ↔ o.value = UnitType.GROUP)) ∧
    (∀ pt form payload, handleCreate pt form = some payload →
        ∃ o ∈ CHILD_TYPE_OPTIONS pt,
          payload.group_type = o.groupType ∧
          (payload.group_type ≠ none ↔ o.value = UnitType.GROUP)) := by
  have tbl : ∀ p : UnitType, ∀ o ∈ CHILD_TYPE_OPTIONS p,
      (o.groupType ≠ none ↔ o.value = UnitType.GROUP) := by decide
  refine ⟨tbl, ?_⟩
  intro pt form payload h
  unfold handleCreate at h
  split at h
  · exact absurd h (by simp)
  · cases hfind : (CHILD_TYPE_OPTIONS pt).find?
        (fun o => optionKey o = form.selectedType) with
    | none => rw [hfind] at h; exact absurd h (by simp)
    | some o =>
        rw [hfind] at h
        have hmem := List.mem_of_find?_eq_some hfind
        have hgt : payload.group_type = o.groupType := by
          cases h; rfl
        exact ⟨o, hmem, hgt, hgt ▸ tbl pt o hmem⟩

/-- Witness for C8: submitting the create form with the
GRUPO-ACOLHIDA option under a SECTOR yields a payload whose
group_type is ACOLHIDA, matching a GROUP option of the table. -/
theorem c8_group_type_iff_group_witness :
    ∃ o ∈ CHILD_TYPE_OPTIONS UnitType.SECTOR,
      (some GroupType.ACOLHIDA : Option GroupType) = o.groupType ∧
      ((some GroupType.ACOLHIDA : Option GroupType) ≠ none ↔
        o.value = UnitType.GROUP) :=
  c8_group_type_iff_group.2 UnitType.SECTOR
    ⟨"Youth".data, [], Visibility.PUBLIC, "GRUPO-ACOLHIDA".data⟩
    ⟨"Youth".data, none, Visibility.PUBLIC, some GroupType.ACOLHIDA⟩
    (by decide)

/-- C3: `can_invite` and `can_manage_members` hold exactly when the
user has an ACTIVE COORDINATOR membership on that exact unit; a user
with no membership row on the unit gets neither permission, whatever
memberships they hold elsewhere (parent, child or sibling units); the
client's isCoordinator likewise tests the exact unit id. -/
theorem c3_permissions_exact_unit :
    (∀ db u unitId,
        (can_invite db u unitId = true ↔
          ∃ m ∈ db.memberships, m.user_id = u ∧ m.org_unit_id = unitId ∧
            m.status = MembershipStatus.ACTIVE ∧
            m.role = Role.COORDINATOR) ∧
        can_manage_members db u unitId = can_invite db u unitId ∧
        ((∀ m ∈ db.memberships,
            ¬(m.user_id = u ∧ m.org_unit_id = unitId)) →
          can_invite db u unitId = false ∧
          can_manage_members db u unitId = false)) ∧
    (∀ ms unitId,
        isCoordinator ms unitId = true ↔
        ∃ m ∈ ms, m.org_unit_id = unitId ∧ m.role = Role.COORDINATOR) := by
  constructor
  · intro db u unitId
    refine ⟨?_, rfl, ?_⟩
    · simp [can_invite, hasActiveCoordinator, List.any_eq_true]
    · intro hnone
      have : hasActiveCoordinator db u unitId = false := by
        simp only [hasActiveCoordinator, List.any_eq_false,
          decide_eq_true_eq]
        intro m hm
        have := hnone m hm
        tauto
      exact ⟨this, this⟩
  · intro ms unitId
    simp [isCoordinator, List.any_eq_true]

/-- Witness for C3: in the concrete store, wCoordMem makes user 10 a
coordinator of unit 1, and a client membership list on unit 1 with
role COORDINATOR satisfies isCoordinator. -/
theorem c3_permissions_exact_unit_witness :
    (∃ m ∈ wDb.memberships, m.user_id = 10 ∧ m.org_unit_id = 1 ∧
        m.status = MembershipStatus.ACTIVE ∧
        m.role = Role.COORDINATOR) ∧
    isCoordinator [⟨100, 1, Role.COORDINATOR⟩] 1 = true :=
  ⟨((c3_permissions_exact_unit.1 wDb 10 1).1).mp (by decide),
   (c3_permissions_exact_unit.2 [⟨100, 1, Role.COORDINATOR⟩] 1).mpr
     ⟨⟨100, 1, Role.COORDINATOR⟩, by decide, by decide, by decide⟩⟩

/-- C9: on a non-ok response ApiClient.request throws the structured
object carrying the status and the parsed body (empty object when the
body fails to parse), and the stored token is cleared exactly when
the status is 401; on an ok response the token is untouched. -/
theorem c9_request_behavior :
    ∀ st resp,
      (resp.ok = false →
        (request st resp).2 = RequestResult.failure
          { status := resp.status,
            data := resp.body.getD Json.emptyObj } ∧
        (request st resp).1.token =
          (if resp.status = 401 then none else st.token)) ∧
      (resp.ok = true →
        request st resp = (st, RequestResult.success resp.body)) := by
  intro st resp
  constructor
  · intro h
    constructor
    · simp [request, h]
    · by_cases h4 : resp.status = 401 <;> simp [request, h, h4]
  · intro h
    simp [request, h]

/-- Witness for C9: a 401 response with unparseable body clears the
token and throws status 401 with the empty object; a 200 ok response
keeps the token. -/
theorem c9_request_behavior_witness :
    (request ⟨some "tok"⟩ ⟨false, 401, none⟩).1.token = none ∧
    (request ⟨some "tok"⟩ ⟨false, 401, none⟩).2 =
      RequestResult.failure ⟨401, Json.emptyObj⟩ ∧
    request ⟨some "tok"⟩ ⟨true, 200, some (Json.payload "x")⟩ =
      (⟨some "tok"⟩, RequestResult.success (some (Json.payload "x"))) :=
  ⟨((c9_request_behavior ⟨some "tok"⟩ ⟨false, 401, none⟩).1
      rfl).2.trans (by simp),
   ((c9_request_behavior ⟨some "tok"⟩ ⟨false, 401, none⟩).1 rfl).1,
   (c9_request_behavior ⟨some "tok"⟩
      ⟨true, 200, some (Json.payload "x")⟩).2 rfl⟩

/-- C4: an ACTIVE membership in a MINISTRY whose parent is a SECTOR
grants view access to that SECTOR even when RESTRICTED, but no
administrative rights there; and the one-level ministry rule is the
only inheritance — a RESTRICTED unit with no direct membership and no
qualifying ministry child is not viewable. -/
theorem c4_ministry_sector_visibility :
    (∀ db u sectorId s m,
        findUnit db sectorId = some s →
        s.type = UnitType.SECTOR →
        m ∈ db.units → m.type = UnitType.MINISTRY →
        m.parent_id = some sectorId →
        hasActiveMembership db u m.id = true →
        canView db u sectorId = true ∧
        (hasActiveCoordinator db u sectorId = false →
          can_manage_members db u sectorId = false)) ∧
    (∀ db u unitId unit,
        findUnit db unitId = some unit →
        unit.visibility = Visibility.RESTRICTED →
        hasActiveMembership db u unitId = false →
        (∀ w ∈ db.units, ¬(w.type = UnitType.MINISTRY ∧
            w.parent_id = some unitId ∧
            hasActiveMembership db u w.id = true)) →
        canView db u unitId = false) := by
  constructor
  · intro db u sectorId s m hfind hst hm hmt hmp hmem
    constructor
    · simp [canView, hfind]
      exact Or.inr (Or.inr ⟨hst, m, hm, hmt, hmp, hmem⟩)
    · intro hnc
      unfold can_manage_members
      exact hnc
  · intro db u unitId unit hfind hvis hmem hno
    simp [canView, hfind, hvis, hmem]
    intro _ w hw hwt hwp
    cases hb : hasActiveMembership db u w.id with
    | false => rfl
    | true => exact absurd ⟨hwt, hwp, hb⟩ (hno w hw)

/-- Witness for C4: in the concrete store, user 20's membership in
MINISTRY 2 lets them view the RESTRICTED SECTOR 1 without managing
its members. -/
theorem c4_ministry_sector_visibility_witness :
    canView wDb 20 1 = true ∧ can_manage_members wDb 20 1 = false :=
  ⟨(c4_ministry_sector_visibility.1 wDb 20 1 wParent wMinistry
      (by decide) (by decide) (by decide) (by decide) (by decide)
      (by decide)).1,
   (c4_ministry_sector_visibility.1 wDb 20 1 wParent wMinistry
      (by decide) (by decide) (by decide) (by decide) (by decide)
      (by decide)).2 (by decide)⟩

/-! Helper lemmas about the JS string primitives, shared by the
dev-token round-trip theorem. -/

theorem splitOnChar_ne_nil (sep : Char) (l : List Char) :
    splitOnChar sep l ≠ [] := by
  cases l with
  | nil => simp [splitOnChar]
  | cons c rest =>
      simp only [splitOnChar]
      cases h : splitOnChar sep rest with
      | nil => simp
      | cons w ws => by_cases hc : c = sep <;> simp [hc]

theorem splitOnChar_of_not_mem (sep : Char) (l : List Char)
    (h : sep ∉ l) : splitOnChar sep l = [l] := by
  induction l with
  | nil => rfl
  | cons c rest ih =>
      have hc : c ≠ sep := fun e => h (e ▸ List.mem_cons_self c rest)
      have hrest : sep ∉ rest := fun hr => h (List.mem_cons_of_mem c hr)
      simp only [splitOnChar, ih hrest]
      simp [hc]

theorem splitOnChar_append (sep : Char) (l r : List Char)
    (h : sep ∉ l) :
    splitOnChar sep (l ++ sep :: r) = l :: splitOnChar sep r := by
  induction l with
  | nil =>
      simp only [List.nil_append, splitOnChar]
      cases hr : splitOnChar sep r with
      | nil => exact absurd hr (splitOnChar_ne_nil sep r)
      | cons w ws => simp
  | cons c rest ih =>
      have hc : c ≠ sep := fun e => h (e ▸ List.mem_cons_self c rest)
      have hrest : sep ∉ rest := fun hr => h (List.mem_cons_of_mem c hr)
      simp only [List.cons_append, splitOnChar, List.append_eq]
      rw [ih hrest]
      simp [hc]

theorem splitOnChar_headD (sep : Char) (l : List Char) :
    (splitOnChar sep l).headD [] =
      l.takeWhile (fun c => !decide (c = sep)) := by
  induction l with
  | nil => rfl
  | cons c rest ih =>
      simp only [splitOnChar]
      cases h : splitOnChar sep rest with
      | nil => exact absurd h (splitOnChar_ne_nil sep rest)
      | cons w ws =>
          rw [h] at ih
          simp only [List.headD_cons] at ih
          by_cases hc : c = sep
          · simp [hc, List.takeWhile_cons]
          · simp [hc, List.takeWhile_cons, ih]

theorem mem_of_mem_jsTrim (c : Char) (s : List Char)
    (h : c ∈ jsTrim s) : c ∈ s := by
  unfold jsTrim at h
  rw [List.mem_reverse] at h
  have h2 := (List.dropWhile_sublist isJsSpace).subset h
  rw [List.mem_reverse] at h2
  exact (List.dropWhile_sublist isJsSpace).subset h2

theorem colon_not_mem_jsToLower (s : List Char) (h : ':' ∉ s) :
    ':' ∉ jsToLower s := by
  intro hm
  rcases List.mem_map.mp hm with ⟨c, hc, hlc⟩
  have hceq : c = ':' := by
    unfold jsToLowerChar at hlc
    cases hf : upperLowerPairs.find? (fun p => p.1 = c) with
    | none => rw [hf] at hlc; exact hlc
    | some p =>
        rw [hf] at hlc
        have hp2 : ∀ q ∈ upperLowerPairs, q.2 ≠ ':' := by decide
        exact absurd hlc (hp2 p (List.mem_of_find?_eq_some hf))
  exact h (hceq ▸ hc)

/-- C10: for every email containing at-sign and no colon, the dev
login stores a token from which the home screen's loadUser recovers
exactly the trimmed, lowercased email. -/
theorem c10_dev_token_round_trip :
    ∀ email : List Char, '@' ∈ email → ':' ∉ email →
      ∃ tok, handleDevLogin email = some tok ∧
        loadUser tok = some (normalizedEmail email) := by
  intro email hat hcolon
  refine ⟨['d', 'e', 'v', ':'] ++ ((splitOnChar '@' email).headD []) ++
      [':'] ++ normalizedEmail email, by simp [handleDevLogin, hat], ?_⟩
  have hlocal_nc : ':' ∉ (splitOnChar '@' email).headD [] := by
    rw [splitOnChar_headD]
    intro hm
    exact hcolon ((List.takeWhile_sublist _).subset hm)
  have hnorm_nc : ':' ∉ normalizedEmail email := by
    unfold normalizedEmail
    apply colon_not_mem_jsToLower
    intro hm
    exact hcolon (mem_of_mem_jsTrim _ _ hm)
  have htok : ['d', 'e', 'v', ':'] ++ ((splitOnChar '@' email).headD []) ++
      [':'] ++ normalizedEmail email =
      ['d', 'e', 'v'] ++ (':' :: (((splitOnChar '@' email).headD []) ++
        (':' :: normalizedEmail email))) := by
    simp
  rw [htok]
  unfold loadUser
  rw [splitOnChar_append ':' ['d', 'e', 'v'] _ (by decide),
    splitOnChar_append ':' _ _ hlocal_nc,
    splitOnChar_of_not_mem ':' _ hnorm_nc]
  simp

/-- Witness for C10: the round trip on a concrete mixed-case email
with surrounding spaces. -/
theorem c10_dev_token_round_trip_witness :
    ∃ tok, handleDevLogin " John.Doe@Example.COM ".data = some tok ∧
      loadUser tok =
        some (normalizedEmail " John.Doe@Example.COM ".data) :=
  c10_dev_token_round_trip " John.Doe@Example.COM ".data
    (by decide) (by decide)

/-- C1: the invitation state machine — a non-PENDING invitation
rejects both accept and reject with InvalidState; after invite then
accept, the invitation is terminal (both repeat accept and reject fail
with InvalidState) and exactly one ACTIVE Membership row exists for
the (user, unit) pair; after invite then reject, the invitation is
likewise terminal and no Membership row exists. -/
theorem c1_invitation_lifecycle :
    (∀ db invId callerId now inv,
        findInvitation db invId = some inv →
        inv.invited_user_id = callerId →
        invExpired inv now = false →
        inv.status ≠ InvStatus.PENDING →
        accept db invId callerId now =
          Except.error OrgError.InvalidState ∧
        reject db invId callerId now =
          Except.error OrgError.InvalidState) ∧
    (∀ db db1 callerId unitId invitedId role now1 now2,
        invite db callerId unitId invitedId role = Except.ok db1 →
        ∃ db2, accept db1 db.nextId invitedId now1 = Except.ok db2 ∧
          accept db2 db.nextId invitedId now2 =
            Except.error OrgError.InvalidState ∧
          reject db2 db.nextId invitedId now2 =
            Except.error OrgError.InvalidState ∧
          activeCount db2 invitedId unitId = 1) ∧
    (∀ db db1 callerId unitId invitedId role now1 now2,
        invite db callerId unitId invitedId role = Except.ok db1 →
        ∃ db3, reject db1 db.nextId invitedId now1 = Except.ok db3 ∧
          accept db3 db.nextId invitedId now2 =
            Except.error OrgError.InvalidState ∧
          reject db3 db.nextId invitedId now2 =
            Except.error OrgError.InvalidState ∧
          activeCount db3 invitedId unitId = 0) := by
  refine ⟨?_, ?_, ?_⟩
  · intro db invId callerId now inv hfind hcaller hexp hstat
    constructor <;> simp [accept, reject, hfind, hcaller, hexp, hstat]
  · intro db db1 callerId unitId invitedId role now1 now2 hinv
    unfold invite at hinv
    cases hfu : findUnit db unitId with
    | none => simp [hfu] at hinv
    | some u =>
        simp only [hfu] at hinv
        split_ifs at hinv with h1 h2 h3
        rw [Except.ok.injEq] at hinv
        subst hinv
        rw [Bool.not_eq_true] at h3
        have hfilter : db.memberships.filter (fun m =>
            m.user_id = invitedId ∧ m.org_unit_id = unitId ∧
            m.status = MembershipStatus.ACTIVE) = [] := by
          rw [List.filter_eq_nil_iff]
          exact List.any_eq_false.mp h3
        refine ⟨{ units := db.units,
                  memberships :=
                    ⟨db.nextId + 1, invitedId, unitId, role,
                      MembershipStatus.ACTIVE, now1⟩ :: db.memberships,
                  invitations :=
                    ⟨db.nextId, unitId, invitedId, callerId, role,
                      InvStatus.ACCEPTED, none⟩ ::
                      db.invitations.map (fun i =>
                        if i.id = db.nextId then
                          { i with status := InvStatus.ACCEPTED }
                        else i),
                  nextId := db.nextId + 2 }, ?_, ?_, ?_, ?_⟩
        · simp [accept, findInvitation, invExpired]
          simpa [hasActiveMembership] using h3
        · simp [accept, findInvitation, invExpired]
        · simp [reject, findInvitation, invExpired]
        · simp [activeCount, hfilter]
          intro a ha hu ho
          have hna := List.any_eq_false.mp h3 a ha
          simp only [decide_eq_true_eq] at hna
          exact fun hs => hna ⟨hu, ho, hs⟩
  · intro db db1 callerId unitId invitedId role now1 now2 hinv
    unfold invite at hinv
    cases hfu : findUnit db unitId with
    | none => simp [hfu] at hinv
    | some u =>
        simp only [hfu] at hinv
        split_ifs at hinv with h1 h2 h3
        rw [Except.ok.injEq] at hinv
        subst hinv
        rw [Bool.not_eq_true] at h3
        have hfilter : db.memberships.filter (fun m =>
            m.user_id = invitedId ∧ m.org_unit_id = unitId ∧
            m.status = MembershipStatus.ACTIVE) = [] := by
          rw [List.filter_eq_nil_iff]
          exact List.any_eq_false.mp h3
        refine ⟨{ units := db.units,
                  memberships := db.memberships,
                  invitations :=
                    ⟨db.nextId, unitId, invitedId, callerId, role,
                      InvStatus.REJECTED, none⟩ ::
                      db.invitations.map (fun i =>
                        if i.id = db.nextId then
                          { i with status := InvStatus.REJECTED }
                        else i),
                  nextId := db.nextId + 1 }, ?_, ?_, ?_, ?_⟩
        · simp [reject, findInvitation, invExpired]
        · simp [accept, findInvitation, invExpired]
        · simp [reject, findInvitation, invExpired]
        · simp [activeCount, hfilter]
          intro a ha hu ho
          have hna := List.any_eq_false.mp h3 a ha
          simp only [decide_eq_true_eq] at hna
          exact fun hs => hna ⟨hu, ho, hs⟩

/-- Witness for C1: the concrete invite-accept-accept run. -/
theorem c1_invitation_lifecycle_witness :
    ∃ db2, accept wDb1 200 30 5 = Except.ok db2 ∧
      accept db2 200 30 6 = Except.error OrgError.InvalidState ∧
      reject db2 200 30 6 = Except.error OrgError.InvalidState ∧
      activeCount db2 30 1 = 1 :=
  c1_invitation_lifecycle.2.1 wDb wDb1 10 1 30 Role.MEMBER 5 6 rfl

/-- C7: every operation validates before writing — a failed operation
returns the store unchanged along with its error; a successful accept
commits both writes together (the Membership insert and the
invitation flip to ACCEPTED, nothing else); the invites screen, on a
failed accept/reject, shows the structured detail message (or the
fallback) and leaves its list untouched. -/
theorem c7_validate_before_write :
    (∀ op db db2 e, runOp op db = (db2, some e) → db2 = db) ∧
    (∀ db invId callerId now db2,
        accept db invId callerId now = Except.ok db2 →
        ∃ inv, findInvitation db invId = some inv ∧
          inv.status = InvStatus.PENDING ∧
          db2.units = db.units ∧
          db2.memberships =
            ⟨db.nextId, inv.invited_user_id, inv.org_unit_id, inv.role,
              MembershipStatus.ACTIVE, now⟩ :: db.memberships ∧
          db2.invitations = db.invitations.map (fun i =>
            if i.id = invId then { i with status := InvStatus.ACCEPTED }
            else i)) ∧
    (∀ invites dm fb,
        onInviteActionFailure invites dm fb = (invites, dm.getD fb)) := by
  refine ⟨?_, ?_, ?_⟩
  · intro op db db2 e h
    unfold runOp at h
    cases hop : op db with
    | ok dbx => rw [hop] at h; simp at h
    | error ex => rw [hop] at h; exact (Prod.mk.injEq .. ▸ h).1.symm
  · intro db invId callerId now db2 hacc
    unfold accept at hacc
    cases hfi : findInvitation db invId with
    | none => simp [hfi] at hacc
    | some inv =>
        simp only [hfi] at hacc
        split_ifs at hacc with h1 h2 h3 h4
        rw [Except.ok.injEq] at hacc
        subst hacc
        exact ⟨inv, rfl, not_not.mp h3, rfl, rfl, rfl⟩
  · intro invites dm fb
    rfl

/-- Witness for C7: the failed second accept leaves the store of the
concrete run unchanged, and the successful first accept commits the
membership insert and the status flip together. -/
theorem c7_validate_before_write_witness :
    (runOp (fun d => accept d 200 30 6) wDb2).1 = wDb2 ∧
    ∃ inv, findInvitation wDb1 200 = some inv ∧
      inv.status = InvStatus.PENDING ∧
      wDb2.units = wDb1.units ∧
      wDb2.memberships =
        ⟨wDb1.nextId, inv.invited_user_id, inv.org_unit_id, inv.role,
          MembershipStatus.ACTIVE, 5⟩ :: wDb1.memberships ∧
      wDb2.invitations = wDb1.invitations.map (fun i =>
        if i.id = 200 then { i with status := InvStatus.ACCEPTED }
        else i) :=
  ⟨c7_validate_before_write.1 (fun d => accept d 200 30 6) wDb2
      (runOp (fun d => accept d 200 30 6) wDb2).1
      OrgError.InvalidState (by decide),
   c7_validate_before_write.2.1 wDb1 200 30 5 wDb2 rfl⟩

/-- C6: listMembers returns ACTIVE memberships of the unit only, in an
order that never puts a MEMBER before a COORDINATOR and is by join
date within a role, and is a permutation of the matching rows; the
client members screen displays the coordinator filter followed by the
member filter, each preserving the received order, so every
coordinator precedes every regular member. -/
theorem c6_members_order :
    (∀ db unitId,
        (∀ m ∈ listMembers db unitId,
          m.org_unit_id = unitId ∧
            m.status = MembershipStatus.ACTIVE) ∧
        (listMembers db unitId).Pairwise (fun a b =>
          ¬(a.role = Role.MEMBER ∧ b.role = Role.COORDINATOR) ∧
          (a.role = b.role → a.joined_at ≤ b.joined_at)) ∧
        (listMembers db unitId).Perm
          (db.memberships.filter (fun m =>
            m.org_unit_id = unitId ∧
            m.status = MembershipStatus.ACTIVE))) ∧
    (∀ members : List ClientMember,
        displayedMembers members =
          members.filter (fun m => m.role = Role.COORDINATOR) ++
            members.filter (fun m => m.role = Role.MEMBER) ∧
        (members.filter
          (fun m => m.role = Role.COORDINATOR)).Sublist members ∧
        (members.filter
          (fun m => m.role = Role.MEMBER)).Sublist members ∧
        (displayedMembers members).Pairwise (fun a b =>
          ¬(a.role = Role.MEMBER ∧ b.role = Role.COORDINATOR))) := by
  constructor
  · intro db unitId
    refine ⟨?_, ?_, List.perm_insertionSort memberOrder _⟩
    · intro m hm
      have hm2 := (List.mem_insertionSort memberOrder).mp hm
      have := List.of_mem_filter hm2
      simpa using this
    · have hs := List.sorted_insertionSort memberOrder
        (db.memberships.filter (fun m =>
          m.org_unit_id = unitId ∧
          m.status = MembershipStatus.ACTIVE))
      refine hs.imp ?_
      intro a b hab
      unfold memberOrder at hab
      constructor
      · rintro ⟨ha, hb⟩
        rw [ha, hb] at hab
        simp [roleRank] at hab
      · intro heq
        rw [heq] at hab
        omega
  · intro members
    refine ⟨rfl, List.filter_sublist _, List.filter_sublist _, ?_⟩
    rw [displayedMembers, List.pairwise_append]
    refine ⟨?_, ?_, ?_⟩
    · apply List.Pairwise.imp_of_mem ?_ (List.pairwise_of_forall_mem_list
        (fun a ha b hb => True.intro))
      intro a b ha hb _
      have := List.of_mem_filter ha
      simp only [decide_eq_true_eq] at this
      rintro ⟨hma, _⟩
      rw [this] at hma
      exact Role.noConfusion hma
    · apply List.Pairwise.imp_of_mem ?_ (List.pairwise_of_forall_mem_list
        (fun a ha b hb => True.intro))
      intro a b ha hb _
      have := List.of_mem_filter hb
      simp only [decide_eq_true_eq] at this
      rintro ⟨_, hmb⟩
      rw [this] at hmb
      exact Role.noConfusion hmb
    · intro a ha b hb
      have := List.of_mem_filter ha
      simp only [decide_eq_true_eq] at this
      rintro ⟨hma, _⟩
      rw [this] at hma
      exact Role.noConfusion hma

/-- Witness for C6: a concrete four-row store evaluated through
listMembers and displayedMembers. -/
theorem c6_members_order_witness :
    (∀ m ∈ listMembers wDb2 1,
      m.org_unit_id = 1 ∧ m.status = MembershipStatus.ACTIVE) ∧
    displayedMembers
        [⟨5, Role.MEMBER, 3⟩, ⟨6, Role.COORDINATOR, 9⟩] =
      [⟨6, Role.COORDINATOR, 9⟩, ⟨5, Role.MEMBER, 3⟩] :=
  ⟨(c6_members_order.1 wDb2 1).1,
   ((c6_members_order.2
      [⟨5, Role.MEMBER, 3⟩, ⟨6, Role.COORDINATOR, 9⟩]).1).trans
     (by decide)⟩

theorem rootId_mem_flatten (t : TreeUnit) : t.rootId ∈ t.flatten := by
  cases t with
  | node i cs => simp [TreeUnit.rootId, TreeUnit.flatten]

mutual
theorem edges_sublist_tree (t : TreeUnit) (a b : Nat)
    (h : (a, b) ∈ t.edges) : [a, b].Sublist t.flatten := by
  cases t with
  | node i cs =>
      simp only [TreeUnit.edges] at h
      simp only [TreeUnit.flatten]
      exact edges_sublist_children i cs a b h
theorem edges_sublist_children (p : Nat) (cs : TreeChildren)
    (a b : Nat) (h : (a, b) ∈ TreeChildren.edgesC p cs) :
    [a, b].Sublist (p :: TreeChildren.flattenC cs) := by
  cases cs with
  | nil => simp [TreeChildren.edgesC] at h
  | cons t ts =>
      simp only [TreeChildren.edgesC, List.mem_cons,
        List.mem_append] at h
      simp only [TreeChildren.flattenC]
      rcases h with h | h | h
      · rw [Prod.mk.injEq] at h
        obtain ⟨ha, hb⟩ := h
        subst ha; subst hb
        refine List.Sublist.cons₂ _ ?_
        rw [List.singleton_sublist]
        exact List.mem_append_left _ (rootId_mem_flatten t)
      · exact (edges_sublist_tree t a b h).trans
          (List.Sublist.cons _ (List.sublist_append_left _ _))
      · exact (edges_sublist_children p ts a b h).trans
          (List.Sublist.cons₂ _ (List.sublist_append_right _ _))
end

mutual
theorem renderUnit_full (expanded : List Nat) (t : TreeUnit)
    (level : Nat) (h : ∀ i ∈ t.flatten, i ∈ expanded) :
    (renderUnit expanded t level).map Prod.fst = t.flatten := by
  cases t with
  | node i cs =>
      simp only [TreeUnit.flatten] at h ⊢
      simp only [renderUnit]
      cases cs with
      | nil =>
          simp [TreeChildren.flattenC, hasChildrenC,
            renderChildrenList]
      | cons t1 ts =>
          have hi : i ∈ expanded := h i (List.mem_cons_self i _)
          simp only [hasChildrenC, hi, and_true, List.map_cons, if_true]
          rw [renderChildren_full expanded (TreeChildren.cons t1 ts)
            (level + 1) (fun j hj => h j (List.mem_cons_of_mem i hj))]
theorem renderChildren_full (expanded : List Nat)
    (cs : TreeChildren) (level : Nat)
    (h : ∀ i ∈ TreeChildren.flattenC cs, i ∈ expanded) :
    (renderChildrenList expanded cs level).map Prod.fst =
      TreeChildren.flattenC cs := by
  cases cs with
  | nil => simp [renderChildrenList, TreeChildren.flattenC]
  | cons t ts =>
      simp only [renderChildrenList, TreeChildren.flattenC,
        List.map_append]
      rw [renderUnit_full expanded t level
          (fun i hi => h i (List.mem_append_left _ hi)),
        renderChildren_full expanded ts level
          (fun i hi => h i (List.mem_append_right _ hi))]
end

/-- C5: a preorder traversal of the nested structure returned by
getTree yields, for every parent/child edge, the parent strictly
before the child; when the ids are distinct every unit appears
exactly once; and renderUnit always emits a node's own row first,
coinciding with the full preorder when every node is expanded. -/
theorem c5_tree_preorder :
    (∀ t : TreeUnit, ∀ a b, (a, b) ∈ t.edges →
        [a, b].Sublist t.flatten) ∧
    (∀ t : TreeUnit, t.flatten.Nodup →
        ∀ i ∈ t.flatten, t.flatten.count i = 1) ∧
    (∀ (expanded : List Nat) (t : TreeUnit) (level : Nat), ∃ rest,
        renderUnit expanded t level = (t.rootId, level) :: rest) ∧
    (∀ (expanded : List Nat) (t : TreeUnit) (level : Nat),
        (∀ i ∈ t.flatten, i ∈ expanded) →
        (renderUnit expanded t level).map Prod.fst = t.flatten) := by
  refine ⟨edges_sublist_tree, ?_, ?_, renderUnit_full⟩
  · intro t hnd i hi
    exact List.count_eq_one_of_mem hnd hi
  · intro expanded t level
    cases t with
    | node i cs =>
        simp only [renderUnit, TreeUnit.rootId]
        exact ⟨_, rfl⟩

/-- Witness for C5: the concrete four-node tree. -/
theorem c5_tree_preorder_witness :
    [1, 2].Sublist wTree.flatten ∧
    wTree.flatten.count 3 = 1 ∧
    (∃ rest, renderUnit [1, 2] wTree 0 = (1, 0) :: rest) ∧
    (renderUnit [1, 2, 3, 4] wTree 0).map Prod.fst = wTree.flatten :=
  ⟨c5_tree_preorder.1 wTree 1 2 (by decide),
   c5_tree_preorder.2.1 wTree (by decide) 3 (by decide),
   c5_tree_preorder.2.2.1 [1, 2] wTree 0,
   c5_tree_preorder.2.2.2 [1, 2, 3, 4] wTree 0 (by decide)⟩
end Lumen
